import Mathlib

/-!
# Go plugin template: descriptor table and exported functions

A shallow embedding of `Plugin Language Templates/Go-PluginTemplate.go`:
the cgo preamble (the `PluginEntry` record, the static `pluginEntries`
table, `pluginEntryCount`, `GetPluginEntries`) and the exported Go
functions (`addtwonumbers`, `sayhello`, `factorial`, `Fibonacci`, `XBeep`,
`PluginSleep`).

Conventions.
* A C `int` (Go `C.int`) is a 32-bit signed integer.  It is embedded as an
  `Int` lying in `[-2^31, 2^31 - 1]`; every arithmetic operation of the
  source is followed by an explicit reduction modulo `2^32` (`wrap32`).
* A `const char*` that is initialised from a string literal or `NULL` is
  embedded as an `Option String` (`none` is `NULL`).
-/

namespace PluginTemplate

/-! ## Machine integers -/

/-- Reduction of an integer to the 32-bit signed range, modulo `2^32`. -/
def wrap32 (x : Int) : Int := (x + 2147483648) % 4294967296 - 2147483648

/-- The values representable as a 32-bit signed C `int`. -/
def IsInt32 (x : Int) : Prop := -2147483648 ≤ x ∧ x ≤ 2147483647

instance (x : Int) : Decidable (IsInt32 x) := by
  unfold IsInt32; infer_instance

/-! ## The descriptor table (cgo preamble) -/

/-- The native C types that occur in the `extern` declarations of the preamble. -/
inductive CType where
  | int
  | double
  | charPtr
  | bool
  | void
  deriving DecidableEq, Repr

/-- The seven functions declared `extern` in the preamble and exported from Go. -/
inductive NativeFn where
  | addtwonumbers
  | sayhello
  | factorial
  | Fibonacci
  | XBeep
  | PluginSleep
  | DoEvents
  deriving DecidableEq, Repr, Inhabited

/-- Parameter types of each native function, as in its `extern` declaration
(and in its Go definition, where `C.int`, `*C.char`, `C.bool` are used). -/
def NativeFn.params : NativeFn → List CType
  | .addtwonumbers => [.int, .int]
  | .sayhello => [.charPtr]
  | .factorial => [.int]
  | .Fibonacci => [.int]
  | .XBeep => [.int, .int]
  | .PluginSleep => [.int]
  | .DoEvents => []

/-- Return type of each native function, as in its `extern` declaration. -/
def NativeFn.ret : NativeFn → CType
  | .addtwonumbers => .int
  | .sayhello => .charPtr
  | .factorial => .int
  | .Fibonacci => .int
  | .XBeep => .bool
  | .PluginSleep => .bool
  | .DoEvents => .void

/-- The record `struct PluginEntry`. -/
structure PluginEntry where
  name : Option String
  funcPtr : NativeFn
  arity : Int
  paramTypes : List (Option String)
  retType : Option String
  deriving DecidableEq, Repr, Inhabited

/-- C aggregate initialisation of `const char* paramTypes[10]`: the listed
initialisers come first and the remaining slots are `NULL`. -/
def initParamTypes (tags : List (Option String)) : List (Option String) :=
  tags ++ List.replicate (10 - tags.length) none

/-- The static array `pluginEntries`. -/
def pluginEntries : List PluginEntry :=
  [ { name := some "AddTwoNumbers", funcPtr := .addtwonumbers, arity := 2,
      paramTypes := initParamTypes [some "double", some "double"], retType := some "double" },
    { name := some "SayHello", funcPtr := .sayhello, arity := 1,
      paramTypes := initParamTypes [some "string"], retType := some "string" },
    { name := some "Factorial", funcPtr := .factorial, arity := 1,
      paramTypes := initParamTypes [some "integer"], retType := some "integer" },
    { name := some "Fibonacci", funcPtr := .Fibonacci, arity := 1,
      paramTypes := initParamTypes [some "integer"], retType := some "integer" },
    { name := some "Beep", funcPtr := .XBeep, arity := 2,
      paramTypes := initParamTypes [some "integer", some "integer"], retType := some "boolean" },
    { name := some "Sleep", funcPtr := .PluginSleep, arity := 1,
      paramTypes := initParamTypes [some "integer"], retType := some "boolean" },
    { name := some "DoEvents", funcPtr := .DoEvents, arity := 0,
      paramTypes := initParamTypes [none], retType := some "boolean" } ]

/-- The static `pluginEntryCount`, `sizeof(pluginEntries) / sizeof(PluginEntry)`. -/
def pluginEntryCount : Int := pluginEntries.length

/-! ### Memory touched by `GetPluginEntries` -/

/-- The `int` objects an `int*` argument may designate: an `int` owned by the
caller, the `arity` field of the table entry at a given index (reachable from
the `PluginEntry*` that `GetPluginEntries` hands out), or the static
`pluginEntryCount`. -/
inductive IntLoc where
  | caller (slot : Nat)
  | entryArity (index : Nat)
  | entryCount
  deriving DecidableEq, Repr

/-- A `PluginEntry*`: `NULL` or the address of the first element of the
static array `pluginEntries`. -/
inductive EntryPtr where
  | null
  | pluginEntries
  deriving DecidableEq, Repr

/-- The writable memory of the loaded plugin together with the caller's `int`
slots. The table and the count are non-`const` statics. -/
structure CState where
  pluginEntries : List PluginEntry
  pluginEntryCount : Int
  callerInts : Nat → Int

/-- Memory after static initialisation, with the given caller memory. -/
def CState.init (callerInts : Nat → Int) : CState :=
  { pluginEntries := PluginTemplate.pluginEntries
    pluginEntryCount := PluginTemplate.pluginEntryCount
    callerInts := callerInts }

/-- The assignment `*p = v` for an `int* p`. An `entryArity` index beyond
the array designates no object and stores nothing. -/
def CState.store (st : CState) (p : IntLoc) (v : Int) : CState :=
  match p with
  | .caller slot =>
      { st with callerInts := fun a => if a = slot then v else st.callerInts a }
  | .entryArity index =>
      { st with pluginEntries := st.pluginEntries.modify (fun e => { e with arity := v }) index }
  | .entryCount => { st with pluginEntryCount := v }

/-- The function `GetPluginEntries(int* count)`: stores `pluginEntryCount`
through `count` when it is not `NULL`, and returns `pluginEntries`. -/
def GetPluginEntries (st : CState) (count : Option IntLoc) : CState × EntryPtr :=
  let st1 :=
    match count with
    | some p => st.store p st.pluginEntryCount
    | none => st
  (st1, EntryPtr.pluginEntries)

/-- The array an `EntryPtr` designates in a given memory. -/
def CState.deref (st : CState) : EntryPtr → Option (List PluginEntry)
  | .null => none
  | .pluginEntries => some st.pluginEntries

/-! ### What the tags are meant to say -/

/-- The tag that names a native type: `integer` for `int`, `double` for
`double`, `string` for `const char*`, `boolean` for `bool`. No tag names
`void`. -/
def tagOf : CType → Option String
  | .int => some "integer"
  | .double => some "double"
  | .charPtr => some "string"
  | .bool => some "boolean"
  | .void => none

/-- An entry's `arity` and `paramTypes` describe the native parameter list:
the arity is the number of native parameters and the leading tags name the
native parameter types in order. -/
def ParamsDescribeNative (e : PluginEntry) : Prop :=
  e.arity = (e.funcPtr.params.length : Int) ∧
    e.paramTypes.take e.funcPtr.params.length = e.funcPtr.params.map tagOf

instance (e : PluginEntry) : Decidable (ParamsDescribeNative e) := by
  unfold ParamsDescribeNative; infer_instance

/-- An entry's `retType` names the native return type. -/
def RetDescribesNative (e : PluginEntry) : Prop :=
  e.funcPtr.ret ≠ CType.void ∧ e.retType = tagOf e.funcPtr.ret

instance (e : PluginEntry) : Decidable (RetDescribesNative e) := by
  unfold RetDescribesNative; infer_instance

/-- The number of non-`NULL` slots of a `paramTypes` array. -/
def nonNullCount (tags : List (Option String)) : Nat :=
  (tags.filter Option.isSome).length

/-- The calls of a sequence of `GetPluginEntries` invocations, each recorded
with the memory before it, its argument, the memory after it and the pointer
it returned. -/
structure CallRecord where
  pre : CState
  count : Option IntLoc
  post : CState
  ret : EntryPtr

/-- Runs `GetPluginEntries` once per argument of the list, in order, each
call starting from the memory the previous one left. -/
def runCalls (st : CState) : List (Option IntLoc) → List CallRecord
  | [] => []
  | count :: rest =>
      { pre := st, count := count,
        post := (GetPluginEntries st count).1,
        ret := (GetPluginEntries st count).2 } ::
        runCalls (GetPluginEntries st count).1 rest

/-- The value of the `int` object `*p`; `none` when `p` designates no object. -/
def CState.load (st : CState) : IntLoc → Option Int
  | .caller slot => some (st.callerInts slot)
  | .entryArity index => (st.pluginEntries.get? index).map fun e => e.arity
  | .entryCount => some st.pluginEntryCount

/-- A count argument that is `NULL` or designates an `int` outside the table. -/
def OutsideTable : Option IntLoc → Prop
  | some (IntLoc.entryArity _) => False
  | _ => True

instance (c : Option IntLoc) : Decidable (OutsideTable c) := by
  cases c with
  | none => exact isTrue trivial
  | some p =>
    cases p with
    | caller slot => exact isTrue trivial
    | entryArity index => exact isFalse (fun h => h)
    | entryCount => exact isTrue trivial

/-! ## The exported Go functions -/

/-- The function `addtwonumbers(a, b C.int) C.int`, `a + b` in 32 bits. -/
def addtwonumbers (a b : Int) : Int := wrap32 (a + b)

/-- The function `factorial(n C.int) C.int`. -/
def factorial (n : Int) : Int :=
  if n ≤ 1 then 1
  else wrap32 (n * factorial (wrap32 (n - 1)))
termination_by n.toNat
decreasing_by
  unfold wrap32
  omega

/-- The function `Fibonacci(n C.int) C.int`. -/
def Fibonacci (n : Int) : Int :=
  if n ≤ 0 then 0
  else if n = 1 then 1
  else wrap32 (Fibonacci (wrap32 (n - 1)) + Fibonacci (wrap32 (n - 2)))
termination_by n.toNat
decreasing_by
  all_goals
    unfold wrap32
    omega

/-! ### `sayhello` -/

/-- C memory holding `char` arrays: the block at index `a` is the sequence of
bytes stored from address `a` on. Addresses `≥ length` are not allocated. -/
abbrev CharHeap := List (List Nat)

/-- A `*C.char`: `nil` or the address of the first byte of a block. -/
abbrev CharPtr := Option Nat

/-- The cgo helper `C.GoString`: the bytes from the pointer up to (not
including) the first NUL byte; the empty string for a `nil` pointer. -/
def GoString (h : CharHeap) (p : CharPtr) : List Nat :=
  match p with
  | none => []
  | some a => (h.getD a []).takeWhile fun b => b ≠ 0

/-- The cgo helper `C.CString`: allocates a fresh block, copies the bytes of
the Go string there followed by a NUL byte, and returns its address. -/
def CString (h : CharHeap) (s : List Nat) : CharHeap × CharPtr :=
  (h ++ [s ++ [0]], some h.length)

/-- The bytes of the Go string literal `"Hello, "` (ASCII, one byte per
character). -/
def helloBytes : List Nat := "Hello, ".toList.map Char.toNat

/-- The function `sayhello(name *C.char) *C.char`. -/
def sayhello (h : CharHeap) (name : CharPtr) : CharHeap × CharPtr :=
  let goName := GoString h name
  let greeting := helloBytes ++ goName
  CString h greeting

/-! ### `XBeep` -/

/-- Reduction of an integer to the 64-bit signed range (`int64`, `time.Duration`). -/
def wrap64 (x : Int) : Int :=
  (x + 9223372036854775808) % 18446744073709551616 - 9223372036854775808

/-- The conversion `uintptr(x)` of a `C.int` on a 64-bit target. -/
def uintptr (x : Int) : Nat := (x % 18446744073709551616).toNat

/-- What `XBeep` reads from its environment: `runtime.GOOS`, and the first
result `ret` of calling `Beep` in `kernel32.dll` with two `uintptr` arguments. -/
structure Runtime where
  GOOS : String
  kernel32Beep : Nat → Nat → Nat

/-- The observable actions of `XBeep` and `PluginSleep`. -/
inductive Effect where
  | beepCall (frequency duration : Nat)
  | print (s : String)
  | sleep (nanoseconds : Int)
  deriving DecidableEq, Repr

/-- The constant `time.Millisecond`, in nanoseconds. -/
def Millisecond : Int := 1000000

/-- The function `XBeep(frequency, duration C.int) C.bool`, returning the
actions performed and the result. -/
def XBeep (rt : Runtime) (frequency duration : Int) : List Effect × Bool :=
  if rt.GOOS = "windows" then
    let ret := rt.kernel32Beep (uintptr frequency) (uintptr duration)
    if ret ≠ 0 then
      ([Effect.beepCall (uintptr frequency) (uintptr duration)], true)
    else
      ([Effect.beepCall (uintptr frequency) (uintptr duration)], false)
  else
    ([Effect.print "\x07", Effect.sleep (wrap64 (wrap64 duration * Millisecond))], true)

/-- The request was satisfied by the primary mechanism: the platform has the
tone API (Windows) and the call to it reported success. -/
def PrimarySatisfied (rt : Runtime) (frequency duration : Int) : Prop :=
  rt.GOOS = "windows" ∧ rt.kernel32Beep (uintptr frequency) (uintptr duration) ≠ 0

instance (rt : Runtime) (f d : Int) : Decidable (PrimarySatisfied rt f d) := by
  unfold PrimarySatisfied; infer_instance

/-- The fallback was used: the bell character was printed. -/
def FallbackUsed (effects : List Effect) : Prop := Effect.print "\x07" ∈ effects

instance (effects : List Effect) : Decidable (FallbackUsed effects) := by
  unfold FallbackUsed; infer_instance

/-- A runtime that is not Windows. -/
def linuxRuntime : Runtime := { GOOS := "linux", kernel32Beep := fun _ _ => 0 }

/-! ### `PluginSleep` -/

/-- The function `PluginSleep(ms C.int) C.bool`, returning the actions
performed (one `time.Sleep` of `time.Duration(ms) * time.Millisecond`) and the
result. -/
def PluginSleep (ms : Int) : List Effect × Bool :=
  ([Effect.sleep (wrap64 (wrap64 ms * Millisecond))], true)

/-- The values representable as a 64-bit signed integer (`time.Duration`). -/
def IsInt64 (x : Int) : Prop := -9223372036854775808 ≤ x ∧ x ≤ 9223372036854775807

instance (x : Int) : Decidable (IsInt64 x) := by
  unfold IsInt64; infer_instance

/-! ### The tag vocabulary -/

/-- The four type tags of the descriptor convention. -/
def typeTagVocabulary : List String := ["integer", "double", "string", "boolean"]

/-! ### Recursion under a bound on the call depth -/

/-- The function `factorial` run with at most `depth` nested activations:
`none` when the call stack would have to grow deeper than that. -/
def factorialWithin : Nat → Int → Option Int
  | 0, _ => none
  | depth + 1, n =>
      if n ≤ 1 then some 1
      else (factorialWithin depth (wrap32 (n - 1))).map fun r => wrap32 (n * r)

/-- The function `Fibonacci` run with at most `depth` nested activations:
`none` when the call stack would have to grow deeper than that. -/
def FibonacciWithin : Nat → Int → Option Int
  | 0, _ => none
  | depth + 1, n =>
      if n ≤ 0 then some 0
      else if n = 1 then some 1
      else
        match FibonacciWithin depth (wrap32 (n - 1)), FibonacciWithin depth (wrap32 (n - 2)) with
        | some x, some y => some (wrap32 (x + y))
        | _, _ => none

/-! ## Theorems about the descriptor table -/

/-- C1 (evaluation at the failing entry): the entry `AddTwoNumbers` points to
`addtwonumbers(int, int)` but declares the parameter tags `double`, `double`,
so the table does not describe the native signature of every entry; the six
other entries do describe theirs. -/
theorem pluginEntries_AddTwoNumbers_params_mismatch :
    (∃ e, pluginEntries.head? = some e ∧ e.name = some "AddTwoNumbers" ∧
        e.funcPtr = NativeFn.addtwonumbers ∧
        e.funcPtr.params = [CType.int, CType.int] ∧
        e.arity = 2 ∧
        e.paramTypes.take 2 = [some "double", some "double"] ∧
        e.funcPtr.params.map tagOf = [some "integer", some "integer"] ∧
        ¬ ParamsDescribeNative e) ∧
      ¬ (∀ e ∈ pluginEntries, ParamsDescribeNative e) ∧
      (pluginEntries.tail.all fun e => decide (ParamsDescribeNative e)) = true := by
  decide

/-- C2: `GetPluginEntries`, called on the initialised plugin with a caller's
count slot, stores 7 there, the number of declared entries; the table it
returns has 7 entries, every name is a non-empty string, and entries at
different positions have different names. -/
theorem GetPluginEntries_count_and_names (mem : Nat → Int) (slot : Nat) :
    ((GetPluginEntries (CState.init mem) (some (IntLoc.caller slot))).1.callerInts slot = 7) ∧
      ((GetPluginEntries (CState.init mem) (some (IntLoc.caller slot))).1.callerInts slot
        = (pluginEntries.length : Int)) ∧
      ∃ tbl,
        (GetPluginEntries (CState.init mem) (some (IntLoc.caller slot))).1.deref
            (GetPluginEntries (CState.init mem) (some (IntLoc.caller slot))).2 = some tbl ∧
          tbl.length = 7 ∧
          (∀ i : Fin 7, (tbl.getD i default).name ≠ none ∧
            (tbl.getD i default).name ≠ some "") ∧
          (∀ i j : Fin 7, i ≠ j → (tbl.getD i default).name ≠ (tbl.getD j default).name) := by
  refine ⟨?_, ?_, pluginEntries, ?_, ?_⟩
  · simp [GetPluginEntries, CState.store, CState.init, pluginEntryCount, pluginEntries]
  · simp [GetPluginEntries, CState.store, CState.init, pluginEntryCount, pluginEntries]
  · simp [GetPluginEntries, CState.store, CState.init, CState.deref]
  · decide

/-- C3: in every entry of `pluginEntries` the `paramTypes` array has 10 slots,
the declared arity is the number of its non-`NULL` slots, and slot `i` is
non-`NULL` exactly when `i < arity` (so the first `arity` slots hold tags and
all later slots are `NULL`); `DoEvents` has arity 0 and only `NULL` slots. -/
theorem pluginEntries_arity_eq_nonNullCount :
    (∀ e ∈ pluginEntries,
        e.paramTypes.length = 10 ∧
        e.arity = (nonNullCount e.paramTypes : Int) ∧
        ∀ i : Fin 10, (e.paramTypes.getD i none).isSome = decide ((i.val : Int) < e.arity)) ∧
      (∀ e ∈ pluginEntries, e.name = some "DoEvents" →
        e.arity = 0 ∧ e.paramTypes = List.replicate 10 none) := by
  decide

/-- C3 at the entry `DoEvents`: a member of the table with arity 0, no
non-`NULL` tag and ten `NULL` slots. -/
theorem pluginEntries_arity_eq_nonNullCount_witness :
    pluginEntries.getD 6 default ∈ pluginEntries ∧
      (pluginEntries.getD 6 default).name = some "DoEvents" ∧
      (pluginEntries.getD 6 default).arity = 0 ∧
      nonNullCount (pluginEntries.getD 6 default).paramTypes = 0 ∧
      (pluginEntries.getD 6 default).paramTypes = List.replicate 10 none :=
  ⟨by decide, by decide,
    (pluginEntries_arity_eq_nonNullCount.2 _ (by decide) (by decide)).1,
    by decide,
    (pluginEntries_arity_eq_nonNullCount.2 _ (by decide) (by decide)).2⟩

/-! ## Theorems about the integer functions -/

/-- Every result of `wrap32` is a 32-bit signed value. -/
theorem wrap32_isInt32 (x : Int) : IsInt32 (wrap32 x) := by
  unfold IsInt32 wrap32
  omega

/-- Reduction leaves a 32-bit signed value unchanged. -/
theorem wrap32_of_isInt32 {x : Int} (hx : IsInt32 x) : wrap32 x = x := by
  unfold IsInt32 at hx
  unfold wrap32
  omega

/-- Unfolding of `factorial` on an argument above 1. -/
theorem factorial_of_one_lt {n : Int} (h : 1 < n) :
    factorial n = wrap32 (n * factorial (wrap32 (n - 1))) := by
  rw [factorial, if_neg (not_le.mpr h)]

/-- Unfolding of `Fibonacci` on an argument above 1. -/
theorem Fibonacci_of_one_lt {n : Int} (h : 1 < n) :
    Fibonacci n = wrap32 (Fibonacci (wrap32 (n - 1)) + Fibonacci (wrap32 (n - 2))) := by
  rw [Fibonacci, if_neg (by omega), if_neg (by omega)]

/-- C4 (counterexample): `2147483647` and `1` are both 32-bit signed values,
yet `addtwonumbers(2147483647, 1)` is `-2147483648`, not the sum `2147483648`. -/
theorem addtwonumbers_overflow_counterexample :
    IsInt32 2147483647 ∧ IsInt32 1 ∧
      addtwonumbers 2147483647 1 = -2147483648 ∧
      addtwonumbers 2147483647 1 ≠ 2147483647 + 1 := by
  decide

/-- C4 (amended): for 32-bit signed `a` and `b`, `addtwonumbers(a, b)` is the
mathematical sum `a + b` exactly when that sum is itself a 32-bit signed
value. -/
theorem addtwonumbers_exact_iff (a b : Int) (ha : IsInt32 a) (hb : IsInt32 b) :
    (IsInt32 (a + b) → addtwonumbers a b = a + b) ∧
      (addtwonumbers a b = a + b ↔ IsInt32 (a + b)) := by
  have _ := ha
  have _ := hb
  refine ⟨fun h => wrap32_of_isInt32 h, ⟨fun h => ?_, fun h => wrap32_of_isInt32 h⟩⟩
  unfold addtwonumbers at h
  exact h ▸ wrap32_isInt32 (a + b)

/-- C4 (amended) at `a = 40`, `b = 2`: the sum 42 is representable and is
returned. -/
theorem addtwonumbers_exact_iff_witness :
    IsInt32 40 ∧ IsInt32 2 ∧ IsInt32 (40 + 2) ∧ addtwonumbers 40 2 = 40 + 2 :=
  ⟨by decide, by decide, by decide,
    (addtwonumbers_exact_iff 40 2 (by decide) (by decide)).1 (by decide)⟩

/-- C5: for every 32-bit signed `n`, `factorial n` is 1 when `n ≤ 1` and is
the 32-bit product of `n` and `factorial (n - 1)` when `n > 1`; and
`factorial 5 = 120`. -/
theorem factorial_spec (n : Int) (hn : IsInt32 n) :
    (n ≤ 1 → factorial n = 1) ∧
      (1 < n → factorial n = wrap32 (n * factorial (n - 1))) ∧
      factorial 5 = 120 := by
  refine ⟨fun h => ?_, fun h => ?_, ?_⟩
  · rw [factorial, if_pos h]
  · have hw : wrap32 (n - 1) = n - 1 := by
      apply wrap32_of_isInt32
      unfold IsInt32 at hn ⊢
      omega
    rw [factorial_of_one_lt h, hw]
  · simp [factorial, wrap32]

/-- C5 at `n = 5` and at `n = -3`: `factorial 5` is the 32-bit product of 5
and `factorial 4`, and `factorial (-3) = 1`. -/
theorem factorial_spec_witness :
    IsInt32 5 ∧ factorial 5 = wrap32 (5 * factorial (5 - 1)) ∧
      IsInt32 (-3) ∧ factorial (-3) = 1 :=
  ⟨by decide, (factorial_spec 5 (by decide)).2.1 (by decide),
    by decide, (factorial_spec (-3) (by decide)).1 (by decide)⟩

/-- C6: for every 32-bit signed `n`, `Fibonacci n` is 0 when `n ≤ 0`,
`Fibonacci 1 = 1`, and `Fibonacci n` is the 32-bit sum of `Fibonacci (n - 1)`
and `Fibonacci (n - 2)` when `n > 1`; and `Fibonacci 10 = 55`. -/
theorem Fibonacci_spec (n : Int) (hn : IsInt32 n) :
    (n ≤ 0 → Fibonacci n = 0) ∧
      Fibonacci 1 = 1 ∧
      (1 < n → Fibonacci n = wrap32 (Fibonacci (n - 1) + Fibonacci (n - 2))) ∧
      Fibonacci 10 = 55 := by
  refine ⟨fun h => ?_, ?_, fun h => ?_, ?_⟩
  · rw [Fibonacci, if_pos h]
  · simp [Fibonacci]
  · have hw1 : wrap32 (n - 1) = n - 1 := by
      apply wrap32_of_isInt32
      unfold IsInt32 at hn ⊢
      omega
    have hw2 : wrap32 (n - 2) = n - 2 := by
      apply wrap32_of_isInt32
      unfold IsInt32 at hn ⊢
      omega
    rw [Fibonacci_of_one_lt h, hw1, hw2]
  · simp [Fibonacci, wrap32]

/-- C6 at `n = 10` and at `n = -7`: `Fibonacci 10` is the 32-bit sum of
`Fibonacci 9` and `Fibonacci 8`, and `Fibonacci (-7) = 0`. -/
theorem Fibonacci_spec_witness :
    IsInt32 10 ∧ Fibonacci 10 = wrap32 (Fibonacci (10 - 1) + Fibonacci (10 - 2)) ∧
      IsInt32 (-7) ∧ Fibonacci (-7) = 0 :=
  ⟨by decide, (Fibonacci_spec 10 (by decide)).2.2.1 (by decide),
    by decide, (Fibonacci_spec (-7) (by decide)).1 (by decide)⟩

/-! ## Theorems about `sayhello` -/

/-- Reading a block that holds the non-NUL bytes `s`, then a NUL byte, yields `s`. -/
theorem takeWhile_ne_zero_append (s rest : List Nat) (hs : ∀ b ∈ s, b ≠ 0) :
    (s ++ 0 :: rest).takeWhile (fun b => b ≠ 0) = s := by
  induction s with
  | nil => simp
  | cons x xs ih =>
    have hx : x ≠ 0 := hs x (List.mem_cons_self x xs)
    have hxs : ∀ b ∈ xs, b ≠ 0 := fun b hb => hs b (List.mem_cons_of_mem x hb)
    simpa [List.takeWhile_cons, hx] using ih hxs

/-- The string literal `"Hello, "` has the seven bytes `H e l l o , space`. -/
theorem helloBytes_eq : helloBytes = [72, 101, 108, 108, 111, 44, 32] := by
  decide

/-- C7: when `name` points to a C string `s` (non-NUL bytes followed by a NUL
byte), `sayhello` returns a pointer to a block that was not allocated before,
leaves the existing blocks as they were, and the C string at the returned
pointer is `"Hello, "` followed by `s`, of length `length s + 7`. -/
theorem sayhello_spec (h : CharHeap) (a : Nat) (s rest : List Nat)
    (hs : ∀ b ∈ s, b ≠ 0) (hblk : h.get? a = some (s ++ 0 :: rest)) :
    GoString (sayhello h (some a)).1 (sayhello h (some a)).2 = helloBytes ++ s ∧
      (GoString (sayhello h (some a)).1 (sayhello h (some a)).2).length = s.length + 7 ∧
      (sayhello h (some a)).2 = some h.length ∧
      h.get? h.length = none ∧
      (sayhello h (some a)).1.take h.length = h ∧
      (sayhello h (some a)).1.get? h.length = some (helloBytes ++ s ++ [0]) := by
  have hname : GoString h (some a) = s := by
    have hget : h.getD a [] = s ++ 0 :: rest := by
      rw [List.getD_eq_getElem?_getD, ← List.get?_eq_getElem?, hblk]
      rfl
    simp only [GoString, hget]
    exact takeWhile_ne_zero_append s rest hs
  have hall : ∀ b ∈ helloBytes ++ s, b ≠ 0 := by
    intro b hb
    rcases List.mem_append.mp hb with hb | hb
    · rw [helloBytes_eq] at hb
      intro h0
      subst h0
      revert hb
      decide
    · exact hs b hb
  have hres : GoString (sayhello h (some a)).1 (sayhello h (some a)).2 = helloBytes ++ s := by
    simp only [sayhello, CString, hname]
    simp only [GoString]
    have hget : (h ++ [helloBytes ++ s ++ [0]]).getD h.length [] = helloBytes ++ s ++ [0] := by
      simp [List.getD_eq_getElem?_getD]
    rw [hget, List.append_assoc]
    exact takeWhile_ne_zero_append (helloBytes ++ s) [] hall
  refine ⟨hres, ?_, ?_, ?_, ?_, ?_⟩
  · rw [hres, List.length_append, helloBytes_eq]
    simp
    omega
  · simp [sayhello, CString]
  · simp [List.get?_eq_getElem?]
  · simp [sayhello, CString]
  · simp [sayhello, CString, hname, List.get?_eq_getElem?]

/-- C7 at the empty string: on a heap whose only block is the single NUL
byte, `sayhello` returns a new block holding exactly `"Hello, "`. -/
theorem sayhello_spec_witness :
    GoString (sayhello [[0]] (some 0)).1 (sayhello [[0]] (some 0)).2 = helloBytes ∧
      (GoString (sayhello [[0]] (some 0)).1 (sayhello [[0]] (some 0)).2).length = 7 ∧
      (sayhello [[0]] (some 0)).2 = some 1 :=
  ⟨(sayhello_spec [[0]] 0 [] [] (by simp) (by simp)).1,
    (sayhello_spec [[0]] 0 [] [] (by simp) (by simp)).2.1,
    (sayhello_spec [[0]] 0 [] [] (by simp) (by simp)).2.2.1⟩

/-! ## Theorems about the return tags -/

/-- C8 (counterexample): `AddTwoNumbers` points to a function returning `int`
and declares `double`; `DoEvents` points to a function returning `void` and
declares `boolean`; so not every entry's `retType` names its native return
type. -/
theorem pluginEntries_retType_counterexample :
    (pluginEntries.getD 0 default).funcPtr.ret = CType.int ∧
      (pluginEntries.getD 0 default).retType = some "double" ∧
      ¬ RetDescribesNative (pluginEntries.getD 0 default) ∧
      (pluginEntries.getD 6 default).funcPtr.ret = CType.void ∧
      (pluginEntries.getD 6 default).retType = some "boolean" ∧
      ¬ RetDescribesNative (pluginEntries.getD 6 default) ∧
      ¬ (∀ e ∈ pluginEntries, RetDescribesNative e) := by
  decide

/-- C8 (amended): every entry other than `AddTwoNumbers` and `DoEvents`
declares the tag that names its native return type; `DoEvents`, whose native
function returns `void` (named by no tag), declares `boolean`. -/
theorem pluginEntries_retType_amended :
    (∀ e ∈ pluginEntries, e.name ≠ some "AddTwoNumbers" → e.name ≠ some "DoEvents" →
        RetDescribesNative e) ∧
      (∀ e ∈ pluginEntries, e.name = some "DoEvents" →
        e.funcPtr.ret = CType.void ∧ tagOf e.funcPtr.ret = none ∧
          e.retType = some "boolean") := by
  decide

/-- C8 (amended) at the entries `Beep` and `DoEvents`. -/
theorem pluginEntries_retType_amended_witness :
    pluginEntries.getD 4 default ∈ pluginEntries ∧
      (pluginEntries.getD 4 default).name = some "Beep" ∧
      RetDescribesNative (pluginEntries.getD 4 default) ∧
      pluginEntries.getD 6 default ∈ pluginEntries ∧
      (pluginEntries.getD 6 default).retType = some "boolean" :=
  ⟨by decide, by decide,
    pluginEntries_retType_amended.1 _ (by decide) (by decide) (by decide),
    by decide,
    (pluginEntries_retType_amended.2 _ (by decide) (by decide)).2.2⟩

/-! ## Theorems about `XBeep` -/

/-- C9 (counterexample): on Linux, `XBeep(440, 100)` prints the bell
character and sleeps 100 ms (the fallback), the primary mechanism is not
used, and yet the result is `true`. -/
theorem XBeep_fallback_counterexample :
    (XBeep linuxRuntime 440 100).1 = [Effect.print "\x07", Effect.sleep 100000000] ∧
      FallbackUsed (XBeep linuxRuntime 440 100).1 ∧
      ¬ PrimarySatisfied linuxRuntime 440 100 ∧
      (XBeep linuxRuntime 440 100).2 = true ∧
      ¬ ((XBeep linuxRuntime 440 100).2 = true ↔ PrimarySatisfied linuxRuntime 440 100) := by
  decide

/-- C9 (amended): for every frequency, duration and platform, `XBeep` returns
`true` exactly when the tone API succeeded or the platform is not Windows (the
bell-and-sleep fallback, which always reports `true`); it returns `false`
exactly when the platform is Windows and the tone API reports failure. The
fallback is used exactly on the platforms other than Windows. -/
theorem XBeep_result_amended (rt : Runtime) (frequency duration : Int) :
    ((XBeep rt frequency duration).2 = true ↔
        (PrimarySatisfied rt frequency duration ∨ rt.GOOS ≠ "windows")) ∧
      ((XBeep rt frequency duration).2 = false ↔
        (rt.GOOS = "windows" ∧
          rt.kernel32Beep (uintptr frequency) (uintptr duration) = 0)) ∧
      (FallbackUsed (XBeep rt frequency duration).1 ↔ rt.GOOS ≠ "windows") ∧
      (rt.GOOS = "windows" →
        (XBeep rt frequency duration).1 =
          [Effect.beepCall (uintptr frequency) (uintptr duration)]) ∧
      (rt.GOOS ≠ "windows" →
        (XBeep rt frequency duration).1 =
          [Effect.print "\x07", Effect.sleep (wrap64 (wrap64 duration * Millisecond))]) := by
  unfold XBeep PrimarySatisfied FallbackUsed
  by_cases hw : rt.GOOS = "windows"
  · by_cases hr : rt.kernel32Beep (uintptr frequency) (uintptr duration) = 0
    · simp [hw, hr]
    · simp [hw, hr]
  · simp [hw]

/-! ## Theorems about repeated calls of `GetPluginEntries` -/

/-- A call whose count argument lies outside the table keeps the table and
the static count as they were. -/
theorem GetPluginEntries_frame (st : CState) (count : Option IntLoc)
    (hc : OutsideTable count) (hcount : st.pluginEntryCount = 7) :
    (GetPluginEntries st count).1.pluginEntries = st.pluginEntries ∧
      (GetPluginEntries st count).1.pluginEntryCount = 7 := by
  cases count with
  | none => exact ⟨rfl, hcount⟩
  | some p =>
    cases p with
    | caller slot => exact ⟨rfl, hcount⟩
    | entryArity index => exact absurd hc (by simp [OutsideTable])
    | entryCount => exact ⟨rfl, hcount⟩

/-- The invariant of a run whose count arguments all lie outside the table. -/
theorem runCalls_invariant (calls : List (Option IntLoc)) :
    ∀ st : CState, st.pluginEntries = pluginEntries → st.pluginEntryCount = 7 →
      (∀ c ∈ calls, OutsideTable c) →
      ∀ k ∈ runCalls st calls,
        k.ret = EntryPtr.pluginEntries ∧
          k.post.deref k.ret = some pluginEntries ∧
          k.pre.pluginEntries = pluginEntries ∧
          (∀ p, k.count = some p → k.post.load p = some 7) ∧
          (k.count = none → k.post = k.pre) := by
  induction calls with
  | nil => intro st _ _ _ k hk; simp [runCalls] at hk
  | cons c rest ih =>
    intro st htbl hcnt hout k hk
    have hc : OutsideTable c := hout c (List.mem_cons_self c rest)
    have hframe := GetPluginEntries_frame st c hc hcnt
    simp only [runCalls, List.mem_cons] at hk
    rcases hk with rfl | hk
    · refine ⟨rfl, ?_, htbl, ?_, ?_⟩
      · simp only [GetPluginEntries, CState.deref]
        exact congrArg some (hframe.1.trans htbl)
      · intro p hp
        simp only at hp
        subst hp
        cases p with
        | caller slot => simp [GetPluginEntries, CState.store, CState.load, hcnt]
        | entryArity index => exact absurd hc (by simp [OutsideTable])
        | entryCount => simp [GetPluginEntries, CState.store, CState.load, hcnt]
      · intro hnone
        simp only at hnone
        subst hnone
        rfl
    · exact ih _ (hframe.1.trans htbl) hframe.2
        (fun c2 hc2 => hout c2 (List.mem_cons_of_mem c hc2)) k hk

/-- The records of a run carry the arguments of the calls, in order. -/
theorem runCalls_count (calls : List (Option IntLoc)) :
    ∀ st : CState, (runCalls st calls).map (fun k => k.count) = calls := by
  induction calls with
  | nil => intro st; rfl
  | cons c rest ih => intro st; simp [runCalls, ih]

/-- C10 (counterexample): after a first call with a `NULL` count, a second
call whose count slot is the `arity` field of the first table entry returns
the same address, but the table there has changed: the arity of
`AddTwoNumbers` is now 7. -/
theorem GetPluginEntries_alias_counterexample :
    ((runCalls (CState.init fun _ => 0) [none, some (IntLoc.entryArity 0)]).map
        fun k => (k.ret, (k.post.deref k.ret).map fun t => t.map fun e => e.arity))
      = [(EntryPtr.pluginEntries, some [2, 1, 1, 1, 2, 1, 0]),
          (EntryPtr.pluginEntries, some [7, 1, 1, 1, 2, 1, 0])] ∧
      (GetPluginEntries (CState.init fun _ => 0) (some (IntLoc.entryArity 0))).1.pluginEntries
        ≠ (CState.init fun _ => 0).pluginEntries := by
  decide

/-- C10 (amended): in every sequence of calls none of whose count slots lies
inside the table, each call returns the same non-null address, the table at
that address is the initial one with its 7 entries in order, a supplied count
slot holds 7 after the call, and a call with a `NULL` count leaves the whole
memory as it was. -/
theorem GetPluginEntries_deterministic (mem : Nat → Int) (calls : List (Option IntLoc))
    (hout : ∀ c ∈ calls, OutsideTable c) :
    (runCalls (CState.init mem) calls).map (fun k => k.count) = calls ∧
      pluginEntries.length = 7 ∧
      ∀ k ∈ runCalls (CState.init mem) calls,
        k.ret = EntryPtr.pluginEntries ∧
          k.ret ≠ EntryPtr.null ∧
          k.post.deref k.ret = some pluginEntries ∧
          k.post.pluginEntries = k.pre.pluginEntries ∧
          (∀ p, k.count = some p → k.post.load p = some 7) ∧
          (k.count = none → k.post = k.pre) := by
  refine ⟨runCalls_count calls _, by decide, fun k hk => ?_⟩
  have hcnt : pluginEntryCount = 7 := by decide
  have hinv := runCalls_invariant calls (CState.init mem) rfl hcnt hout k hk
  obtain ⟨hret, hderef, hpre, hload, hnone⟩ := hinv
  refine ⟨hret, ?_, hderef, ?_, hload, hnone⟩
  · rw [hret]
    decide
  · rw [hret] at hderef
    simp only [CState.deref, Option.some.injEq] at hderef
    rw [hderef, hpre]

/-- C10 (amended) on the calls `GetPluginEntries(&n)`, `GetPluginEntries(NULL)`,
`GetPluginEntries(&m)` with caller-owned `n` and `m`: each returns the table
address. -/
theorem GetPluginEntries_deterministic_witness :
    (∀ c ∈ [some (IntLoc.caller 0), none, some (IntLoc.caller 3)], OutsideTable c) ∧
      (runCalls (CState.init fun _ => 0)
          [some (IntLoc.caller 0), none, some (IntLoc.caller 3)]).map (fun k => k.count)
        = [some (IntLoc.caller 0), none, some (IntLoc.caller 3)] ∧
      ∀ k ∈ runCalls (CState.init fun _ => 0)
          [some (IntLoc.caller 0), none, some (IntLoc.caller 3)],
        k.ret = EntryPtr.pluginEntries ∧ k.post.deref k.ret = some pluginEntries :=
  ⟨by decide,
    (GetPluginEntries_deterministic (fun _ => 0)
      [some (IntLoc.caller 0), none, some (IntLoc.caller 3)] (by decide)).1,
    fun k hk =>
      ⟨((GetPluginEntries_deterministic (fun _ => 0)
          [some (IntLoc.caller 0), none, some (IntLoc.caller 3)] (by decide)).2.2 k hk).1,
        ((GetPluginEntries_deterministic (fun _ => 0)
          [some (IntLoc.caller 0), none, some (IntLoc.caller 3)] (by decide)).2.2 k hk).2.2.1⟩⟩

/-! ## Theorems about the tag vocabulary -/

/-- C11: in every entry of `pluginEntries`, each non-`NULL` slot of
`paramTypes` and the `retType` (which is never `NULL`) is one of the four
strings `integer`, `double`, `string`, `boolean`. -/
theorem pluginEntries_tags_in_vocabulary :
    ∀ e ∈ pluginEntries,
      (∀ t ∈ e.paramTypes, t = none ∨ ∃ s ∈ typeTagVocabulary, t = some s) ∧
        ∃ s ∈ typeTagVocabulary, e.retType = some s := by
  decide

/-- C11 at the entry `AddTwoNumbers`: its first parameter tag and its return
tag are both `double`, a member of the vocabulary. -/
theorem pluginEntries_tags_in_vocabulary_witness :
    pluginEntries.getD 0 default ∈ pluginEntries ∧
      some "double" ∈ (pluginEntries.getD 0 default).paramTypes ∧
      (some "double" = none ∨ ∃ s ∈ typeTagVocabulary, some "double" = some s) ∧
      ∃ s ∈ typeTagVocabulary, (pluginEntries.getD 0 default).retType = some s :=
  ⟨by decide, by decide,
    (pluginEntries_tags_in_vocabulary (pluginEntries.getD 0 default) (by decide)).1
      (some "double") (by decide),
    (pluginEntries_tags_in_vocabulary (pluginEntries.getD 0 default) (by decide)).2⟩

/-! ## Theorems about `PluginSleep` -/

/-- C12: for every 32-bit signed `ms ≥ 0`, `PluginSleep ms` performs exactly
one sleep, of `ms * 1000000` nanoseconds (`ms` milliseconds); neither the
conversion to a 64-bit duration nor the multiplication overflows; and the
result is `true`. -/
theorem PluginSleep_spec (ms : Int) (hms : IsInt32 ms) (h0 : 0 ≤ ms) :
    PluginSleep ms = ([Effect.sleep (ms * 1000000)], true) ∧
      wrap64 ms = ms ∧
      IsInt64 (ms * Millisecond) ∧
      0 ≤ ms * 1000000 ∧
      (PluginSleep ms).2 = true := by
  unfold IsInt32 at hms
  have h1 : wrap64 ms = ms := by
    unfold wrap64
    omega
  have h2 : wrap64 (ms * 1000000) = ms * 1000000 := by
    unfold wrap64
    omega
  refine ⟨?_, h1, ?_, by omega, rfl⟩
  · simp only [PluginSleep, Millisecond, h1, h2]
  · unfold IsInt64 Millisecond
    omega

/-- C12 at `ms = 250`: a single sleep of 250000000 ns, result `true`. -/
theorem PluginSleep_spec_witness :
    IsInt32 250 ∧ PluginSleep 250 = ([Effect.sleep (250 * 1000000)], true) :=
  ⟨by decide, (PluginSleep_spec 250 (by decide) (by decide)).1⟩

/-! ## Theorems about 32-bit wrap-around -/

/-- The reduced value is congruent to the original modulo `2^32`. -/
theorem wrap32_modEq (x : Int) : wrap32 x ≡ x [ZMOD 4294967296] := by
  unfold Int.ModEq wrap32
  omega

/-- Congruent integers have the same reduction. -/
theorem wrap32_eq_of_modEq {x y : Int} (h : x ≡ y [ZMOD 4294967296]) :
    wrap32 x = wrap32 y := by
  unfold Int.ModEq at h
  unfold wrap32
  omega

/-- Two 32-bit signed values that are congruent modulo `2^32` are equal. -/
theorem eq_of_isInt32_of_modEq {r s : Int} (hr : IsInt32 r) (hs : IsInt32 s)
    (h : r ≡ s [ZMOD 4294967296]) : r = s := by
  unfold Int.ModEq at h
  unfold IsInt32 at hr hs
  omega

/-- C13: for 32-bit signed `a` and `b`, `addtwonumbers a b` is the unique
32-bit signed value congruent to `a + b` modulo `2^32`: above the range it is
`a + b - 2^32`, below the range `a + b + 2^32` (it does not saturate);
`addtwonumbers 2147483647 1 = -2147483648`; the function is commutative and
0 is an identity on both sides. -/
theorem addtwonumbers_wraps (a b : Int) (ha : IsInt32 a) (hb : IsInt32 b) :
    IsInt32 (addtwonumbers a b) ∧
      addtwonumbers a b ≡ a + b [ZMOD 4294967296] ∧
      (∀ r : Int, IsInt32 r → r ≡ a + b [ZMOD 4294967296] → r = addtwonumbers a b) ∧
      (2147483647 < a + b → addtwonumbers a b = a + b - 4294967296) ∧
      (a + b < -2147483648 → addtwonumbers a b = a + b + 4294967296) ∧
      addtwonumbers 2147483647 1 = -2147483648 ∧
      addtwonumbers a b = addtwonumbers b a ∧
      addtwonumbers a 0 = a ∧
      addtwonumbers 0 a = a := by
  have hmod : addtwonumbers a b ≡ a + b [ZMOD 4294967296] := wrap32_modEq (a + b)
  have hrange : IsInt32 (addtwonumbers a b) := wrap32_isInt32 (a + b)
  refine ⟨hrange, hmod, ?_, ?_, ?_, by decide, ?_, ?_, ?_⟩
  · intro r hr hrm
    exact eq_of_isInt32_of_modEq hr hrange (hrm.trans hmod.symm)
  · intro h
    unfold IsInt32 at ha hb
    unfold addtwonumbers wrap32
    omega
  · intro h
    unfold IsInt32 at ha hb
    unfold addtwonumbers wrap32
    omega
  · unfold addtwonumbers
    rw [add_comm]
  · unfold addtwonumbers
    rw [add_zero]
    exact wrap32_of_isInt32 ha
  · unfold addtwonumbers
    rw [zero_add]
    exact wrap32_of_isInt32 ha

/-- C13 at `a = 2147483647`, `b = 2147483647`: the sum `4294967294` wraps to
`-2`, and at `a = -2147483648`, `b = -1` the sum wraps to `2147483647`. -/
theorem addtwonumbers_wraps_witness :
    IsInt32 2147483647 ∧ addtwonumbers 2147483647 2147483647 = 2147483647 + 2147483647 - 4294967296 ∧
      IsInt32 (-2147483648) ∧ IsInt32 (-1) ∧
      addtwonumbers (-2147483648) (-1) = -2147483648 + -1 + 4294967296 :=
  ⟨by decide,
    (addtwonumbers_wraps 2147483647 2147483647 (by decide) (by decide)).2.2.2.1 (by decide),
    by decide, by decide,
    (addtwonumbers_wraps (-2147483648) (-1) (by decide) (by decide)).2.2.2.2.1 (by decide)⟩

/-! ## Theorems about `factorial` and the mathematical factorial -/

/-- Every result of `factorial` is a 32-bit signed value. -/
theorem factorial_isInt32 (n : Int) : IsInt32 (factorial n) := by
  rw [factorial]
  split_ifs
  · decide
  · exact wrap32_isInt32 _

/-- On a non-negative 32-bit argument `factorial` is the reduction of the
mathematical factorial. -/
theorem factorial_natCast (k : Nat) (hk : (k : Int) ≤ 2147483647) :
    factorial (k : Int) = wrap32 ((Nat.factorial k : Nat) : Int) := by
  induction k with
  | zero =>
    rw [factorial]
    decide
  | succ k ih =>
    rcases Nat.eq_zero_or_pos k with h0 | hpos
    · subst h0
      rw [factorial]
      decide
    · have hlt : (1 : Int) < ((k + 1 : Nat) : Int) := by omega
      have hk2 : (k : Int) ≤ 2147483647 := by omega
      have hw : wrap32 (((k + 1 : Nat) : Int) - 1) = (k : Int) := by
        have hsub : ((k + 1 : Nat) : Int) - 1 = (k : Int) := by omega
        rw [hsub]
        apply wrap32_of_isInt32
        unfold IsInt32
        omega
      rw [factorial_of_one_lt hlt, hw, ih hk2]
      apply wrap32_eq_of_modEq
      have hfac : ((Nat.factorial (k + 1) : Nat) : Int)
          = ((k + 1 : Nat) : Int) * ((Nat.factorial k : Nat) : Int) := by
        rw [Nat.factorial_succ]
        push_cast
        ring
      rw [hfac]
      exact Int.ModEq.mul_left _ (wrap32_modEq _)

/-- The same on an integer argument in `[0, 2^31 - 1]`. -/
theorem factorial_eq_wrap32 (n : Int) (h0 : 0 ≤ n) (hn : n ≤ 2147483647) :
    factorial n = wrap32 ((Nat.factorial n.toNat : Nat) : Int) := by
  have hcast : ((n.toNat : Nat) : Int) = n := Int.toNat_of_nonneg h0
  have h := factorial_natCast n.toNat (by omega)
  rwa [hcast] at h

/-- C14: for every `n` with `0 ≤ n ≤ 2^31 - 1`, `factorial n` is the unique
32-bit signed value congruent to the mathematical `n!` modulo `2^32` (no
overflow check, the product wraps); `factorial 13 = 1932053504` while
`13! = 6227020800`; and `factorial n = 0` for every such `n ≥ 34`. -/
theorem factorial_wraps (n : Int) (h0 : 0 ≤ n) (hn : n ≤ 2147483647) :
    IsInt32 (factorial n) ∧
      factorial n ≡ ((Nat.factorial n.toNat : Nat) : Int) [ZMOD 4294967296] ∧
      (∀ r : Int, IsInt32 r → r ≡ ((Nat.factorial n.toNat : Nat) : Int) [ZMOD 4294967296] →
        r = factorial n) ∧
      factorial 13 = 1932053504 ∧
      Nat.factorial 13 = 6227020800 ∧
      (34 ≤ n → factorial n = 0) := by
  have heq := factorial_eq_wrap32 n h0 hn
  have hmod : factorial n ≡ ((Nat.factorial n.toNat : Nat) : Int) [ZMOD 4294967296] := by
    rw [heq]
    exact wrap32_modEq _
  refine ⟨factorial_isInt32 n, hmod, ?_, ?_, by decide, ?_⟩
  · intro r hr hrm
    exact eq_of_isInt32_of_modEq hr (factorial_isInt32 n) (hrm.trans hmod.symm)
  · simp [factorial, wrap32]
  · intro h34
    have hle : 34 ≤ n.toNat := by omega
    have hdvd : (4294967296 : Nat) ∣ Nat.factorial n.toNat :=
      Dvd.dvd.trans (by decide) (Nat.factorial_dvd_factorial hle)
    have hdvdZ : (4294967296 : Int) ∣ ((Nat.factorial n.toNat : Nat) : Int) := by
      exact_mod_cast hdvd
    rw [heq]
    have hzero : ((Nat.factorial n.toNat : Nat) : Int) ≡ 0 [ZMOD 4294967296] :=
      (Int.modEq_zero_iff_dvd).mpr hdvdZ
    rw [wrap32_eq_of_modEq hzero]
    decide

/-- C14 at `n = 13`, where `factorial 13` is congruent to `13!` modulo `2^32`,
and at `n = 34`, where `factorial 34 = 0`. -/
theorem factorial_wraps_witness :
    factorial 13 ≡ ((Nat.factorial (13 : Int).toNat : Nat) : Int) [ZMOD 4294967296] ∧
      factorial 34 = 0 :=
  ⟨(factorial_wraps 13 (by decide) (by decide)).2.1,
    (factorial_wraps 34 (by decide) (by decide)).2.2.2.2.2 (by decide)⟩

/-! ## Theorems about termination and call depth -/

/-- With a depth bound of at least `n` and at least 1, the bounded run of
`factorial` on a 32-bit `n` returns the value of `factorial n`. -/
theorem factorialWithin_of_le (depth : Nat) :
    ∀ n : Int, IsInt32 n → n ≤ (depth : Int) → 1 ≤ depth →
      factorialWithin depth n = some (factorial n) := by
  induction depth with
  | zero => intro n _ _ h1; omega
  | succ d ih =>
    intro n hn hle _
    unfold factorialWithin
    by_cases h : n ≤ 1
    · rw [if_pos h, factorial, if_pos h]
    · have hlt : 1 < n := by omega
      have hr : IsInt32 (n - 1) := by
        unfold IsInt32 at hn ⊢
        omega
      have hw : wrap32 (n - 1) = n - 1 := wrap32_of_isInt32 hr
      rw [if_neg h, hw, ih (n - 1) hr (by omega) (by omega), factorial_of_one_lt hlt, hw]
      rfl

/-- With a depth bound of at least `n` and at least 1, the bounded run of
`Fibonacci` on a 32-bit `n` returns the value of `Fibonacci n`. -/
theorem FibonacciWithin_of_le (depth : Nat) :
    ∀ n : Int, IsInt32 n → n ≤ (depth : Int) → 1 ≤ depth →
      FibonacciWithin depth n = some (Fibonacci n) := by
  induction depth with
  | zero => intro n _ _ h1; omega
  | succ d ih =>
    intro n hn hle _
    unfold FibonacciWithin
    by_cases h0 : n ≤ 0
    · rw [if_pos h0, Fibonacci, if_pos h0]
    · by_cases h1 : n = 1
      · rw [if_neg h0, if_pos h1, Fibonacci, if_neg h0, if_pos h1]
      · have hlt : 1 < n := by omega
        have hr1 : IsInt32 (n - 1) := by
          unfold IsInt32 at hn ⊢
          omega
        have hr2 : IsInt32 (n - 2) := by
          unfold IsInt32 at hn ⊢
          omega
        have hw1 : wrap32 (n - 1) = n - 1 := wrap32_of_isInt32 hr1
        have hw2 : wrap32 (n - 2) = n - 2 := wrap32_of_isInt32 hr2
        rw [if_neg h0, if_neg h1, hw1, hw2, ih (n - 1) hr1 (by omega) (by omega),
          ih (n - 2) hr2 (by omega) (by omega), Fibonacci_of_one_lt hlt, hw1, hw2]

/-- C15: for every 32-bit signed `n`, negative values and `-2^31` included,
`factorial` and `Fibonacci` return their value within `max n 1` nested
activations; a recursive call is made only when `n > 1`, and then its
argument `n - 1` (and `n - 2` for `Fibonacci`) is computed without underflow,
is strictly smaller than `n`, and is at least 1 for `factorial` and at least
0 for `Fibonacci`. -/
theorem recursion_terminates (n : Int) (hn : IsInt32 n) :
    factorialWithin (max n 1).toNat n = some (factorial n) ∧
      FibonacciWithin (max n 1).toNat n = some (Fibonacci n) ∧
      (1 < n → wrap32 (n - 1) = n - 1 ∧ 1 ≤ wrap32 (n - 1) ∧ wrap32 (n - 1) < n) ∧
      (1 < n → wrap32 (n - 2) = n - 2 ∧ 0 ≤ wrap32 (n - 2) ∧ wrap32 (n - 2) < n) ∧
      (n ≤ 1 → factorialWithin 1 n = some 1) ∧
      (n ≤ 0 → FibonacciWithin 1 n = some 0) ∧
      factorialWithin 1 (-2147483648) = some 1 ∧
      FibonacciWithin 1 (-2147483648) = some 0 := by
  have hmax1 : (1 : Int) ≤ max n 1 := le_max_right n 1
  have hmaxn : n ≤ max n 1 := le_max_left n 1
  have hcast : (((max n 1).toNat : Nat) : Int) = max n 1 := Int.toNat_of_nonneg (by omega)
  have hd1 : 1 ≤ (max n 1).toNat := by omega
  have hdn : n ≤ (((max n 1).toNat : Nat) : Int) := by omega
  refine ⟨factorialWithin_of_le _ n hn hdn hd1, FibonacciWithin_of_le _ n hn hdn hd1,
    ?_, ?_, ?_, ?_, by decide, by decide⟩
  · intro h
    have hw : wrap32 (n - 1) = n - 1 := by
      apply wrap32_of_isInt32
      unfold IsInt32 at hn ⊢
      omega
    rw [hw]
    exact ⟨rfl, by omega, by omega⟩
  · intro h
    have hw : wrap32 (n - 2) = n - 2 := by
      apply wrap32_of_isInt32
      unfold IsInt32 at hn ⊢
      omega
    rw [hw]
    exact ⟨rfl, by omega, by omega⟩
  · intro h
    simp [factorialWithin, h]
  · intro h
    simp [FibonacciWithin, h]

/-- C15 at `n = 5` (depth 5 suffices for both functions, depth 4 does not)
and at the minimum value `-2^31` (depth 1 suffices). -/
theorem recursion_terminates_witness :
    IsInt32 5 ∧ factorialWithin 4 5 = none ∧ FibonacciWithin 4 5 = none ∧
      factorialWithin (max 5 1 : Int).toNat 5 = some (factorial 5) ∧
      FibonacciWithin (max 5 1 : Int).toNat 5 = some (Fibonacci 5) ∧
      IsInt32 (-2147483648) ∧
      factorialWithin (max (-2147483648) 1 : Int).toNat (-2147483648)
        = some (factorial (-2147483648)) :=
  ⟨by decide, by decide, by decide,
    (recursion_terminates 5 (by decide)).1, (recursion_terminates 5 (by decide)).2.1,
    by decide, (recursion_terminates (-2147483648) (by decide)).1⟩

/-! ## Theorems about exactness -/

/-- Every result of `Fibonacci` is a 32-bit signed value. -/
theorem Fibonacci_isInt32 (n : Int) : IsInt32 (Fibonacci n) := by
  rw [Fibonacci]
  split_ifs
  · decide
  · decide
  · exact wrap32_isInt32 _

/-- On a non-negative 32-bit argument `Fibonacci` is the reduction of the
mathematical Fibonacci number. -/
theorem Fibonacci_natCast (k : Nat) :
    (k : Int) ≤ 2147483647 → Fibonacci (k : Int) = wrap32 ((Nat.fib k : Nat) : Int) := by
  induction k using Nat.strong_induction_on with
  | _ k ih =>
    intro hk
    match k, ih, hk with
    | 0, _, _ =>
      rw [Fibonacci]
      decide
    | 1, _, _ =>
      rw [Fibonacci]
      decide
    | m + 2, ih, hk =>
      have hlt : (1 : Int) < ((m + 2 : Nat) : Int) := by omega
      have hs1 : ((m + 2 : Nat) : Int) - 1 = ((m + 1 : Nat) : Int) := by omega
      have hs2 : ((m + 2 : Nat) : Int) - 2 = (m : Int) := by omega
      have hw1 : wrap32 (((m + 1 : Nat) : Int)) = ((m + 1 : Nat) : Int) := by
        apply wrap32_of_isInt32
        unfold IsInt32
        omega
      have hw2 : wrap32 (m : Int) = (m : Int) := by
        apply wrap32_of_isInt32
        unfold IsInt32
        omega
      rw [Fibonacci_of_one_lt hlt, hs1, hs2, hw1, hw2,
        ih (m + 1) (by omega) (by omega), ih m (by omega) (by omega)]
      apply wrap32_eq_of_modEq
      have hfib : ((Nat.fib (m + 2) : Nat) : Int)
          = ((Nat.fib (m + 1) : Nat) : Int) + ((Nat.fib m : Nat) : Int) := by
        rw [Nat.fib_add_two]
        push_cast
        ring
      rw [hfib]
      exact Int.ModEq.add (wrap32_modEq _) (wrap32_modEq _)

/-- The mathematical Fibonacci numbers up to index 46 are 32-bit signed values. -/
theorem fib_isInt32_of_le {k : Nat} (hk : k ≤ 46) : IsInt32 ((Nat.fib k : Nat) : Int) := by
  have hmono : Nat.fib k ≤ Nat.fib 46 := Nat.fib_mono hk
  have h46 : Nat.fib 46 = 1836311903 := by norm_num
  unfold IsInt32
  omega

/-- The mathematical Fibonacci numbers from index 47 on exceed `2^31 - 1`. -/
theorem fib_gt_of_ge {k : Nat} (hk : 47 ≤ k) : (2147483647 : Int) < ((Nat.fib k : Nat) : Int) := by
  have hmono : Nat.fib 47 ≤ Nat.fib k := Nat.fib_mono hk
  have h47 : Nat.fib 47 = 2971215073 := by norm_num
  omega

/-- On `0 ≤ n ≤ 46`, `Fibonacci n` is the mathematical Fibonacci number. -/
theorem Fibonacci_exact_of_le (n : Int) (h0 : 0 ≤ n) (h46 : n ≤ 46) :
    Fibonacci n = ((Nat.fib n.toNat : Nat) : Int) := by
  have hcast : ((n.toNat : Nat) : Int) = n := Int.toNat_of_nonneg h0
  have h := Fibonacci_natCast n.toNat (by omega)
  rw [hcast] at h
  rw [h]
  exact wrap32_of_isInt32 (fib_isInt32_of_le (by omega))

/-- C16: for `0 ≤ n ≤ 46`, `Fibonacci n` is the mathematical Fibonacci number
`F(n)` and no addition performed on the way overflows; `F(46) = 1836311903`;
at `n = 47` the addition overflows and `Fibonacci 47 = -1323752223`; and for
every 32-bit `n ≥ 47` the result differs from `F(n)`. -/
theorem Fibonacci_exact_iff (n : Int) (h0 : 0 ≤ n) (hn : IsInt32 n) :
    (n ≤ 46 → Fibonacci n = ((Nat.fib n.toNat : Nat) : Int)) ∧
      (n ≤ 46 → ∀ m : Int, 2 ≤ m → m ≤ n →
        IsInt32 (Fibonacci (m - 1) + Fibonacci (m - 2)) ∧
          Fibonacci m = Fibonacci (m - 1) + Fibonacci (m - 2)) ∧
      (47 ≤ n → Fibonacci n ≠ ((Nat.fib n.toNat : Nat) : Int)) ∧
      Fibonacci 46 = 1836311903 ∧
      Nat.fib 46 = 1836311903 ∧
      ¬ IsInt32 (Fibonacci 46 + Fibonacci 45) ∧
      Fibonacci 47 = -1323752223 := by
  have _ := hn
  have h46 : Nat.fib 46 = 1836311903 := by norm_num
  have h45 : Nat.fib 45 = 1134903170 := by norm_num
  have h47 : Nat.fib 47 = 2971215073 := by norm_num
  have hF46 : Fibonacci 46 = 1836311903 := by
    have h := Fibonacci_exact_of_le 46 (by decide) (by decide)
    have ht : (46 : Int).toNat = 46 := by decide
    rw [ht, h46] at h
    exact_mod_cast h
  have hF45 : Fibonacci 45 = 1134903170 := by
    have h := Fibonacci_exact_of_le 45 (by decide) (by decide)
    have ht : (45 : Int).toNat = 45 := by decide
    rw [ht, h45] at h
    exact_mod_cast h
  refine ⟨fun h => Fibonacci_exact_of_le n h0 h, ?_, ?_, hF46, h46, ?_, ?_⟩
  · intro h m hm2 hmn
    have hm0 : 0 ≤ m := by omega
    have e0 := Fibonacci_exact_of_le m hm0 (by omega)
    have e1 := Fibonacci_exact_of_le (m - 1) (by omega) (by omega)
    have e2 := Fibonacci_exact_of_le (m - 2) (by omega) (by omega)
    have hidx : m.toNat = (m - 2).toNat + 2 := by omega
    have hidx1 : (m - 1).toNat = (m - 2).toNat + 1 := by omega
    have hsum : ((Nat.fib m.toNat : Nat) : Int)
        = ((Nat.fib (m - 1).toNat : Nat) : Int) + ((Nat.fib (m - 2).toNat : Nat) : Int) := by
      rw [hidx, hidx1, Nat.fib_add_two]
      push_cast
      ring
    have hrange : IsInt32 ((Nat.fib m.toNat : Nat) : Int) := fib_isInt32_of_le (by omega)
    rw [e0, e1, e2, ← hsum]
    exact ⟨hrange, rfl⟩
  · intro h heq
    have hr := Fibonacci_isInt32 n
    have hgt : (2147483647 : Int) < ((Nat.fib n.toNat : Nat) : Int) := fib_gt_of_ge (by omega)
    unfold IsInt32 at hr
    omega
  · rw [hF46, hF45]
    decide
  · have h := Fibonacci_natCast 47 (by decide)
    rw [h47] at h
    have hc : ((47 : Nat) : Int) = 47 := by norm_num
    rw [hc] at h
    rw [h]
    decide

/-- C16 at `n = 46` (exact) and at `n = 47` (not exact). -/
theorem Fibonacci_exact_iff_witness :
    IsInt32 46 ∧ Fibonacci 46 = ((Nat.fib (46 : Int).toNat : Nat) : Int) ∧
      IsInt32 47 ∧ Fibonacci 47 ≠ ((Nat.fib (47 : Int).toNat : Nat) : Int) :=
  ⟨by decide, (Fibonacci_exact_iff 46 (by decide) (by decide)).1 (by decide),
    by decide, (Fibonacci_exact_iff 47 (by decide) (by decide)).2.2.1 (by decide)⟩

/-- On `0 ≤ n ≤ 12`, `factorial n` is the mathematical factorial. -/
theorem factorial_exact_of_le (n : Int) (h0 : 0 ≤ n) (h12 : n ≤ 12) :
    factorial n = ((Nat.factorial n.toNat : Nat) : Int) := by
  have hmono : Nat.factorial n.toNat ≤ Nat.factorial 12 := Nat.factorial_le (by omega)
  have hval : Nat.factorial 12 = 479001600 := by decide
  rw [factorial_eq_wrap32 n h0 (by omega)]
  apply wrap32_of_isInt32
  unfold IsInt32
  omega

/-- C17: for a non-negative 32-bit `n`, `factorial n` is the mathematical
`n!` when `n ≤ 12` (`factorial 12 = 479001600 = 12!`) and differs from `n!`
when `n ≥ 13`; so the result is exact if and only if `n ≤ 12`. -/
theorem factorial_exact_iff (n : Int) (h0 : 0 ≤ n) (hn : IsInt32 n) :
    (n ≤ 12 → factorial n = ((Nat.factorial n.toNat : Nat) : Int)) ∧
      (13 ≤ n → factorial n ≠ ((Nat.factorial n.toNat : Nat) : Int)) ∧
      (factorial n = ((Nat.factorial n.toNat : Nat) : Int) ↔ n ≤ 12) ∧
      factorial 12 = 479001600 ∧
      Nat.factorial 12 = 479001600 := by
  have _ := hn
  have hne : 13 ≤ n → factorial n ≠ ((Nat.factorial n.toNat : Nat) : Int) := by
    intro h13 heq
    have hmono : Nat.factorial 13 ≤ Nat.factorial n.toNat := Nat.factorial_le (by omega)
    have hval : Nat.factorial 13 = 6227020800 := by decide
    have hr := factorial_isInt32 n
    unfold IsInt32 at hr
    omega
  refine ⟨fun h => factorial_exact_of_le n h0 h, hne, ⟨fun heq => ?_, fun h => ?_⟩, ?_, by decide⟩
  · by_contra hgt
    exact hne (by omega) heq
  · exact factorial_exact_of_le n h0 h
  · simp [factorial, wrap32]

/-- C17 at `n = 12` (exact) and at `n = 13` (not exact). -/
theorem factorial_exact_iff_witness :
    IsInt32 12 ∧ factorial 12 = ((Nat.factorial (12 : Int).toNat : Nat) : Int) ∧
      IsInt32 13 ∧ factorial 13 ≠ ((Nat.factorial (13 : Int).toNat : Nat) : Int) :=
  ⟨by decide, (factorial_exact_iff 12 (by decide) (by decide)).1 (by decide),
    by decide, (factorial_exact_iff 13 (by decide) (by decide)).2.1 (by decide)⟩

end PluginTemplate
